import Mathlib

/-!
Verification of the scene-graph addressing and resource-lifecycle core
(`src/nerfactory/viewer/app/src/SceneNode.js`).

The JavaScript `SceneNode` class wraps one renderable object, owns a
name-keyed map of child nodes, and exposes path resolution (`find`),
mutation (`set_property`, `set_transform`), replacement (`set_object`),
recursive disposal (`dispose_recursive`) and deletion (`delete`).

Embedding choices:
- JavaScript in-place tree mutation becomes pure state passing: every
  operation returns the updated tree (write-back along the path it walked).
- The renderable object (a THREE.js object) is the external capability the
  spec lists in §6: name, optional geometry/material/texture resource
  handles, transform fields, and generic extra fields.  Resource handles
  are identified by natural-number ids.  The THREE containment hierarchy
  (`object.add` / `object.remove` / `object.parent`) mirrors the node tree
  (invariant I2 of the spec) and is represented by the node tree itself;
  the root's object has no parent.
- Side effects (resource releases, the display-refresh callback, error
  logging) become an explicit event trace returned by each operation.
  A refresh event records the object value at the instant of the call, so
  before/after ordering relative to the mutation is observable.
- Numbers are exact rationals; `Math.sqrt` is modelled exactly on perfect
  squares (the only inputs the claims exercise) and floor-approximated
  otherwise, matching the spec's best-effort decomposition contract (§4.4).
-/

/-- A value passed to `set_property`: either a string or a numeric array. -/
inductive Val : Type where
  | str (s : String)
  | nums (xs : List ℚ)
deriving DecidableEq

/-- Reading `value[i]` for the component-wise transform setters.  The claims
only exercise well-shaped numeric arrays; a missing index defaults to 0. -/
def Val.getNum (v : Val) (i : Nat) : ℚ :=
  match v with
  | .nums xs => xs.getD i 0
  | .str _ => 0

/-- Reading a string-valued `value` (used by the generic field assignment
when the target field is the object's `name`). -/
def Val.getStr (v : Val) : String :=
  match v with
  | .str s => s
  | .nums _ => ""

/-- A material resource handle: its own id and an optional texture map id
(`material.map` in the source). -/
structure MatRes where
  id : Nat
  map : Option Nat
deriving DecidableEq

/-- The `object.material` slot of a renderable object: absent, a single
material, or an array of materials (the source branches on
`Array.isArray(object.material)`). -/
inductive MatSlot : Type where
  | none
  | single (m : MatRes)
  | array (ms : List MatRes)
deriving DecidableEq

abbrev Vec3 := ℚ × ℚ × ℚ

abbrev Vec4 := ℚ × ℚ × ℚ × ℚ

/-- The renderable-object capability consumed by the core (spec §6): name,
optional geometry resource, material slot, transform fields, and generic
extra fields written by the fallback branch of `set_property`.
The quaternion is stored as (x, y, z, w). -/
structure Obj where
  name : String
  geometry : Option Nat
  material : MatSlot
  position : Vec3
  quaternion : Vec4
  scale : Vec3
  extra : List (String × Val)
deriving DecidableEq

/-- Observable side effects of the operations: resource releases
(`geometry.dispose()`, `material.map.dispose()`, `material.dispose()`),
the display-refresh callback (`vis_controller.updateDisplay()`, recording
the object value visible at the instant of the call), and error logging
(`console.error`). -/
inductive Event : Type where
  | geo (id : Nat)
  | tex (id : Nat)
  | mat (id : Nat)
  | refresh (snapshot : Obj)
  | errorLog (msg : String)
deriving DecidableEq

/-- A resource handle, tagged by kind. -/
inductive Res : Type where
  | geo (id : Nat)
  | tex (id : Nat)
  | mat (id : Nat)
deriving DecidableEq

/-- The release event for a resource. -/
def Res.toEvent : Res → Event
  | .geo n => .geo n
  | .tex n => .tex n
  | .mat n => .mat n

/-- Releases performed for one material by the loop body of `dispose`:
`if (material.map) material.map.dispose(); material.dispose();` — the
texture map (when present) strictly before the material itself. -/
def disposeMat (material : MatRes) : List Event :=
  (match material.map with
   | some t => [Event.tex t]
   | Option.none => []) ++ [Event.mat material.id]

/-- The module-level `dispose(object)` function of the source: release the
geometry if present, then the material(s); in the array case each material
is released individually.  The JavaScript null-guard (`if (!object) return`)
is vacuous here because the model's objects are always present. -/
def dispose (object : Obj) : List Event :=
  (match object.geometry with
   | some g => [Event.geo g]
   | Option.none => []) ++
  (match object.material with
   | .none => []
   | .array ms => ms.flatMap disposeMat
   | .single m => disposeMat m)

/-- The materials held by an object, as a list (empty, singleton, or the
array), in the order `dispose` visits them. -/
def Obj.materials (o : Obj) : List MatRes :=
  match o.material with
  | .none => []
  | .single m => [m]
  | .array ms => ms

/-- The resources held by one material, in release order. -/
def MatRes.resources (m : MatRes) : List Res :=
  (match m.map with
   | some t => [Res.tex t]
   | Option.none => []) ++ [Res.mat m.id]

/-- The resources held by one object, in the order `dispose` releases
them. -/
def Obj.resources (o : Obj) : List Res :=
  (match o.geometry with
   | some g => [Res.geo g]
   | Option.none => []) ++ o.materials.flatMap MatRes.resources

mutual
/-- A scene node: wraps exactly one renderable object and owns a name-keyed
map of child nodes (`this.object`, `this.children` in the source). -/
inductive SceneNode : Type where
  | mk (object : Obj) (children : ChildMap)
deriving DecidableEq
/-- The `children` map of a node.  JavaScript objects enumerate string keys
in insertion order, so the map is an insertion-ordered association list. -/
inductive ChildMap : Type where
  | nil
  | cons (name : String) (node : SceneNode) (rest : ChildMap)
deriving DecidableEq
end

/-- The wrapped object of a node. -/
def SceneNode.object : SceneNode → Obj
  | .mk o _ => o

/-- The children map of a node. -/
def SceneNode.children : SceneNode → ChildMap
  | .mk _ cs => cs

/-- Key lookup, `this.children[name]`. -/
def ChildMap.lookup : ChildMap → String → Option SceneNode
  | .nil, _ => Option.none
  | .cons k c rest, name => if k = name then some c else rest.lookup name

/-- Key assignment, `this.children[name] = node`: overwrite in place when
the key is present (keeping its position), append otherwise. -/
def ChildMap.set : ChildMap → String → SceneNode → ChildMap
  | .nil, k, v => .cons k v .nil
  | .cons k' c rest, k, v =>
      if k' = k then .cons k v rest else .cons k' c (rest.set k v)

/-- Key removal, `delete this.children[name]`. -/
def ChildMap.erase : ChildMap → String → ChildMap
  | .nil, _ => .nil
  | .cons k' c rest, k => if k' = k then rest else .cons k' c (rest.erase k)

/-- Modelled from the spec (§2, §6, Glossary): `new THREE.Group()` followed
by `obj.name = name` in `create_child` — an empty, non-drawable renderable
with no geometry/material, default transform (position (0,0,0), identity
quaternion, scale (1,1,1)) and the given name.  THREE.js is an external
capability of the repository, not code under `src/`. -/
def groupObj (name : String) : Obj :=
  { name := name, geometry := Option.none, material := .none,
    position := (0, 0, 0), quaternion := (0, 0, 0, 1), scale := (1, 1, 1),
    extra := [] }

/-- The node fabricated by `create_child(name)`: a fresh group object,
wrapped by `add_child` as a node with no children (a fresh group has no
children to wrap). -/
def freshNode (name : String) : SceneNode :=
  .mk (groupObj name) .nil

/-- Result of `find`: the updated tree (path resolution materializes
missing nodes in place), the resolved node, and how many nodes were
created. -/
structure FindResult where
  tree : SceneNode
  node : SceneNode
  created : Nat
deriving DecidableEq

/-- `find(path)`: empty path returns the node itself; otherwise look up the
first segment, fabricating a fresh child via `create_child` when absent
(`this.children[name] = node` appends it), and recurse on the rest.
The updated subtree is written back under its key, reflecting the
in-place mutation of the JavaScript original. -/
def SceneNode.find : SceneNode → List String → FindResult
  | t, [] => ⟨t, t, 0⟩
  | .mk obj cs, name :: rest =>
      match cs.lookup name with
      | some child =>
          let r := child.find rest
          ⟨.mk obj (cs.set name r.tree), r.node, r.created⟩
      | Option.none =>
          let r := (freshNode name).find rest
          ⟨.mk obj (cs.set name r.tree), r.node, r.created + 1⟩

/-- Pure path lookup (no creation): the node currently at a path, if it
exists.  Used to state where a node sits in the tree. -/
def SceneNode.getNode? : SceneNode → List String → Option SceneNode
  | t, [] => some t
  | .mk _ cs, name :: rest => (cs.lookup name).bind fun c => c.getNode? rest

mutual
/-- `dispose_recursive()`: children first (in key insertion order,
`Object.keys`), depth-first, then `dispose(this.object)`. -/
def SceneNode.dispose_recursive : SceneNode → List Event
  | .mk obj cs => cs.disposeAll ++ dispose obj
/-- Disposal of every node of a children map, in order. -/
def ChildMap.disposeAll : ChildMap → List Event
  | .nil => []
  | .cons _ c rest => c.dispose_recursive ++ rest.disposeAll
end

mutual
/-- Number of nodes of a subtree. -/
def SceneNode.nodeCount : SceneNode → Nat
  | .mk _ cs => 1 + cs.nodeCountAll
/-- Number of nodes under a children map. -/
def ChildMap.nodeCountAll : ChildMap → Nat
  | .nil => 0
  | .cons _ c rest => c.nodeCount + rest.nodeCountAll
end

mutual
/-- The objects of a subtree, in the order `dispose_recursive` visits
them (children first, depth-first, then self). -/
def SceneNode.postorder : SceneNode → List Obj
  | .mk obj cs => cs.postorderAll ++ [obj]
/-- The objects under a children map, in visiting order. -/
def ChildMap.postorderAll : ChildMap → List Obj
  | .nil => []
  | .cons _ c rest => c.postorder ++ rest.postorderAll
end

mutual
/-- All resources held in a subtree, in release order. -/
def SceneNode.resourcesRec : SceneNode → List Res
  | .mk obj cs => cs.resourcesAll ++ obj.resources
/-- All resources held under a children map, in release order. -/
def ChildMap.resourcesAll : ChildMap → List Res
  | .nil => []
  | .cons _ c rest => c.resourcesRec ++ rest.resourcesAll
end

/-- Overwrite-or-append on the generic extra-field store, mirroring
JavaScript field assignment. -/
def extraSet : List (String × Val) → String → Val → List (String × Val)
  | [], k, v => [(k, v)]
  | (k', v') :: rest, k, v =>
      if k' = k then (k, v) :: rest else (k', v') :: extraSet rest k v

/-- The generic branch of `set_property`, `this.object[property] = value`:
assigning to `name` overwrites the object's name field; any other property
is stored as a generic extra field.  (Ill-shaped values for built-in fields
other than `name` are outside what the claims exercise.) -/
def Obj.setGeneric (o : Obj) (property : String) (value : Val) : Obj :=
  if property = "name" then { o with name := value.getStr }
  else { o with extra := extraSet o.extra property value }

/-- `set_property(property, value)` on a node: component-wise transform
setters for `position`, `quaternion`, `scale`; generic field assignment
otherwise; then `this.vis_controller.updateDisplay()` — one refresh event
recording the object value at the instant of the call (the mutation has
already been applied). -/
def SceneNode.set_property (n : SceneNode) (property : String) (value : Val) :
    SceneNode × List Event :=
  let o := n.object
  let o' :=
    if property = "position" then
      { o with position := (value.getNum 0, value.getNum 1, value.getNum 2) }
    else if property = "quaternion" then
      { o with quaternion :=
          (value.getNum 0, value.getNum 1, value.getNum 2, value.getNum 3) }
    else if property = "scale" then
      { o with scale := (value.getNum 0, value.getNum 1, value.getNum 2) }
    else o.setGeneric property value
  (.mk o' n.children, [Event.refresh o'])

/-- Integer square root by bounded search: the largest `k` with
`k * k ≤ n`.  (Structurally recursive so that concrete decompositions
evaluate inside proofs.) -/
def natSqrt (n : Nat) : Nat :=
  ((List.range (n + 1)).filter fun k => k * k ≤ n).foldl max 0

/-- Modelled from the spec (§4.4): `Math.sqrt` of the external engine's
decomposition, over exact rationals — exact on perfect-square rationals
(the only inputs the claims exercise), floor-approximated otherwise
(the spec's best-effort contract for degenerate input). -/
def ratSqrt (q : ℚ) : ℚ :=
  (natSqrt (q.num.toNat * q.den) : ℚ) / (q.den : ℚ)

/-- Modelled from the spec (§4.4, §6): `THREE.Matrix4.determinant()` of the
external engine, the cofactor expansion over the column-major element
array (index `i` reads element `i`, missing entries default to 0). -/
def mat4det (m : List ℚ) : ℚ :=
  let e := fun i => m.getD i 0
  let n11 := e 0; let n12 := e 4; let n13 := e 8; let n14 := e 12
  let n21 := e 1; let n22 := e 5; let n23 := e 9; let n24 := e 13
  let n31 := e 2; let n32 := e 6; let n33 := e 10; let n34 := e 14
  let n41 := e 3; let n42 := e 7; let n43 := e 11; let n44 := e 15
  n41 * (n14 * n23 * n32 - n13 * n24 * n32 - n14 * n22 * n33 +
         n12 * n24 * n33 + n13 * n22 * n34 - n12 * n23 * n34) +
  n42 * (n11 * n23 * n34 - n11 * n24 * n33 + n14 * n21 * n33 -
         n13 * n21 * n34 + n13 * n24 * n31 - n14 * n23 * n31) +
  n43 * (n11 * n24 * n32 - n11 * n22 * n34 - n14 * n21 * n32 +
         n12 * n21 * n34 + n14 * n22 * n31 - n12 * n24 * n31) +
  n44 * (-n13 * n22 * n31 - n11 * n23 * n32 + n11 * n22 * n33 +
         n13 * n21 * n32 - n12 * n21 * n33 + n12 * n23 * n31)

/-- Modelled from the spec (§4.4): `THREE.Quaternion.setFromRotationMatrix`
of the external engine — quaternion (x, y, z, w) extracted from a pure
rotation matrix given in row-index/column-index entries. -/
def quatFromRotationMatrix (m11 m12 m13 m21 m22 m23 m31 m32 m33 : ℚ) : Vec4 :=
  let trace := m11 + m22 + m33
  if 0 < trace then
    let s := (1 / 2) / ratSqrt (trace + 1)
    ((m32 - m23) * s, (m13 - m31) * s, (m21 - m12) * s, (1 / 4) / s)
  else if m22 < m11 ∧ m33 < m11 then
    let s := 2 * ratSqrt (1 + m11 - m22 - m33)
    ((1 / 4) * s, (m12 + m21) / s, (m13 + m31) / s, (m32 - m23) / s)
  else if m33 < m22 then
    let s := 2 * ratSqrt (1 + m22 - m11 - m33)
    ((m12 + m21) / s, (1 / 4) * s, (m23 + m32) / s, (m13 - m31) / s)
  else
    let s := 2 * ratSqrt (1 + m33 - m11 - m22)
    ((m13 + m31) / s, (m23 + m32) / s, (1 / 4) * s, (m21 - m12) / s)

/-- Decomposition result: position, rotation quaternion, scale. -/
structure Decomposed where
  position : Vec3
  quaternion : Vec4
  scale : Vec3
deriving DecidableEq

/-- Modelled from the spec (§4.4, §6): `THREE.Matrix4.fromArray` followed by
`decompose` of the external engine — column lengths give the scale (the x
scale negated when the determinant is negative), columns are normalized and
the quaternion extracted from the resulting rotation matrix, positions read
from the translation column.  Division by a zero scale yields 0 here
(JavaScript produces infinities; degenerate matrices are best-effort per
the spec and outside the claims). -/
def decompose (matrix : List ℚ) : Decomposed :=
  let e := fun i => matrix.getD i 0
  let sxRaw := ratSqrt (e 0 * e 0 + e 1 * e 1 + e 2 * e 2)
  let sy := ratSqrt (e 4 * e 4 + e 5 * e 5 + e 6 * e 6)
  let sz := ratSqrt (e 8 * e 8 + e 9 * e 9 + e 10 * e 10)
  let det := mat4det matrix
  let sx := if det < 0 then -sxRaw else sxRaw
  let invSX := 1 / sx
  let invSY := 1 / sy
  let invSZ := 1 / sz
  { position := (e 12, e 13, e 14),
    quaternion :=
      quatFromRotationMatrix
        (e 0 * invSX) (e 4 * invSY) (e 8 * invSZ)
        (e 1 * invSX) (e 5 * invSY) (e 9 * invSZ)
        (e 2 * invSX) (e 6 * invSY) (e 10 * invSZ),
    scale := (sx, sy, sz) }

/-- The 16-element column-major identity matrix. -/
def identity16 : List ℚ :=
  [1, 0, 0, 0, 0, 1, 0, 0, 0, 0, 1, 0, 0, 0, 0, 1]

/-- `set_transform(matrix)` on a node: build a matrix from the 16-element
array and decompose it onto the object's position, quaternion and scale.
The source contains no refresh-callback invocation here, so the event
trace is empty. -/
def SceneNode.set_transform (n : SceneNode) (matrix : List ℚ) :
    SceneNode × List Event :=
  let d := decompose matrix
  (.mk { n.object with
           position := d.position, quaternion := d.quaternion,
           scale := d.scale }
     n.children, [])

/-- `find(path)` followed by `set_property` on the resolved node, the way
the command dispatcher drives the core (spec §6: the mutated node is
path-resolved); missing intermediate nodes are materialized exactly as
`find` does. -/
def SceneNode.setPropertyAt :
    SceneNode → List String → String → Val → SceneNode × List Event
  | t, [], property, v => t.set_property property v
  | .mk obj cs, name :: rest, property, v =>
      let child := match cs.lookup name with
        | some c => c
        | Option.none => freshNode name
      let r := child.setPropertyAt rest property v
      (.mk obj (cs.set name r.1), r.2)

/-- `find(path)` followed by `set_transform` on the resolved node. -/
def SceneNode.setTransformAt :
    SceneNode → List String → List ℚ → SceneNode × List Event
  | t, [], matrix => t.set_transform matrix
  | .mk obj cs, name :: rest, matrix =>
      let child := match cs.lookup name with
        | some c => c
        | Option.none => freshNode name
      let r := child.setTransformAt rest matrix
      (.mk obj (cs.set name r.1), r.2)

/-- `find(path)` followed by `create_child(name)` on the resolved node:
fabricate a fresh group named `name` and store it via
`this.children[name] = node` (unconditionally, overwriting any existing
entry — `create_child` performs no existence check). -/
def SceneNode.createChildAt : SceneNode → List String → String → SceneNode
  | .mk obj cs, [], name => .mk obj (cs.set name (freshNode name))
  | .mk obj cs, seg :: rest, name =>
      let child := match cs.lookup seg with
        | some c => c
        | Option.none => freshNode seg
      .mk obj (cs.set seg (child.createChildAt rest name))

/-- `find(path)` followed by `set_object(newObj)` on the resolved node.
On a non-empty path the resolved node's parent exists, its wrapped
object's `parent` back-reference is the parent node's object, and the
swap proceeds: the old subtree is disposed recursively, the old object is
detached from the parent object and the new one attached (the THREE
containment mirror), the node's `object` becomes `newObj`, and the node's
`children` map is left untouched.  On the empty path the receiver is the
tree root, whose object has no parent: `const parent = this.object.parent`
is null, `dispose_recursive` still runs, and the subsequent
`this.object.parent.remove(this.object)` throws — result `none`, with the
dispose events that were already emitted. -/
def SceneNode.set_object :
    SceneNode → List String → Obj → Option SceneNode × List Event
  | t, [], _ => (Option.none, t.dispose_recursive)
  | .mk obj cs, [name], newObj =>
      let child := match cs.lookup name with
        | some c => c
        | Option.none => freshNode name
      (some (.mk obj (cs.set name (.mk newObj child.children))),
       child.dispose_recursive)
  | .mk obj cs, name :: rest, newObj =>
      let child := match cs.lookup name with
        | some c => c
        | Option.none => freshNode name
      let r := child.set_object rest newObj
      (r.1.map fun c' => .mk obj (cs.set name c'), r.2)

/-- `delete(path)`: empty path logs an error (`console.error`, a reported
local condition — the function still returns) and leaves the tree alone;
otherwise the parent is resolved via `find` on all but the last segment
(materializing missing intermediates), and the last segment, when present
in the parent's children, is disposed recursively, detached, and removed
from the map — when absent, silent no-op. -/
def SceneNode.delete : SceneNode → List String → SceneNode × List Event
  | t, [] => (t, [Event.errorLog "Can't delete an empty path"])
  | .mk obj cs, [name] =>
      match cs.lookup name with
      | some child => (.mk obj (cs.erase name), child.dispose_recursive)
      | Option.none => (.mk obj cs, [])
  | .mk obj cs, name :: rest =>
      let child := match cs.lookup name with
        | some c => c
        | Option.none => freshNode name
      let r := child.delete rest
      (.mk obj (cs.set name r.1), r.2)

/-- One path-addressed command of the exposed interface (spec §6). -/
inductive Op : Type where
  | findOp (p : List String)
  | createChild (p : List String) (name : String)
  | setProperty (p : List String) (property : String) (value : Val)
  | setTransform (p : List String) (matrix : List ℚ)
  | setObject (p : List String) (o : Obj)
  | deleteOp (p : List String)

/-- Applying one command to the tree.  A `setObject` that faults on the
root (null parent dereference) leaves the tree structurally unchanged:
the throw happens before the object swap, and `dispose_recursive` does not
alter the structure. -/
def SceneNode.apply : SceneNode → Op → SceneNode
  | t, .findOp p => (t.find p).tree
  | t, .createChild p name => t.createChildAt p name
  | t, .setProperty p property v => (t.setPropertyAt p property v).1
  | t, .setTransform p m => (t.setTransformAt p m).1
  | t, .setObject p o =>
      match t.set_object p o with
      | (some t', _) => t'
      | (Option.none, _) => t
  | t, .deleteOp p => (t.delete p).1

/-- Applying a sequence of commands. -/
def SceneNode.applySeq : SceneNode → List Op → SceneNode
  | t, [] => t
  | t, op :: ops => (t.apply op).applySeq ops

mutual
/-- Invariant I1 of the spec, as a decidable check: every key of every
`children` map equals the `name` of the wrapped object of the
corresponding child. -/
def SceneNode.inv1 : SceneNode → Bool
  | .mk _ cs => cs.inv1All
/-- Invariant I1 over one children map. -/
def ChildMap.inv1All : ChildMap → Bool
  | .nil => true
  | .cons k c rest => (k == c.object.name) && c.inv1 && rest.inv1All
end

/-- Whether an event is an invocation of the display-refresh callback. -/
def Event.isRefresh : Event → Bool
  | .refresh _ => true
  | _ => false

/-- How many times an event trace invokes the display-refresh callback. -/
def refreshCount (evs : List Event) : Nat :=
  (evs.filter Event.isRefresh).length

/-- Side conditions under which invariant I1 is preserved (see the
corresponding theorem): an object installed by `set_object` must carry the
name of the child-map key under which the target node is stored (its path's
last segment), and `set_property` must not target the `name` field. -/
def goodOp : Op → Prop
  | .setObject p o => ∀ last, p.getLast? = some last → o.name = last
  | .setProperty _ property _ => property ≠ "name"
  | _ => True

/-- A freshly constructed tree: a root wrapping a bare group object. -/
def sampleRoot : SceneNode :=
  .mk (groupObj "root") .nil

/-- The tree after resolving path `["a"]` on `sampleRoot`. -/
def sampleFound : SceneNode :=
  (sampleRoot.find ["a"]).tree

/-- An object holding one geometry, two array materials (one with a texture
map) — exercising every disposal branch. -/
def objArrayMats : Obj :=
  { name := "g", geometry := some 1,
    material := .array [⟨2, some 3⟩, ⟨4, Option.none⟩],
    position := (0, 0, 0), quaternion := (0, 0, 0, 1), scale := (1, 1, 1),
    extra := [] }

/-- An object holding one geometry and a single material with a texture
map. -/
def objSingleMat : Obj :=
  { name := "c", geometry := some 5, material := .single ⟨6, some 7⟩,
    position := (0, 0, 0), quaternion := (0, 0, 0, 1), scale := (1, 1, 1),
    extra := [] }

/-- A two-node tree whose objects hold geometry, material and texture
resources, all distinct. -/
def resourceTree : SceneNode :=
  .mk objArrayMats (.cons "c" (.mk objSingleMat .nil) .nil)

/-! Helper lemmas about children maps. -/

theorem ChildMap.lookup_set_self :
    ∀ (cs : ChildMap) (k : String) (v : SceneNode),
      (cs.set k v).lookup k = some v
  | .nil, k, v => by simp [ChildMap.set, ChildMap.lookup]
  | .cons k' c rest, k, v => by
      by_cases h : k' = k <;>
        simp [ChildMap.set, ChildMap.lookup, h,
              ChildMap.lookup_set_self rest k v]

theorem ChildMap.set_set_same :
    ∀ (cs : ChildMap) (k : String) (v w : SceneNode),
      (cs.set k v).set k w = cs.set k w
  | .nil, k, v, w => by simp [ChildMap.set]
  | .cons k' c rest, k, v, w => by
      by_cases h : k' = k <;>
        simp [ChildMap.set, h, ChildMap.set_set_same rest k v w]

theorem ChildMap.set_lookup_eq :
    ∀ (cs : ChildMap) (k : String) (v : SceneNode),
      cs.lookup k = some v → cs.set k v = cs
  | .nil, k, v => by simp [ChildMap.lookup]
  | .cons k' c rest, k, v => by
      by_cases hk : k' = k
      · simp [ChildMap.lookup, hk, ChildMap.set]
        intro h; simp [h]
      · simp [ChildMap.lookup, hk, ChildMap.set]
        exact ChildMap.set_lookup_eq rest k v

theorem ChildMap.nodeCountAll_set_none :
    ∀ (cs : ChildMap) (k : String) (v : SceneNode),
      cs.lookup k = Option.none →
      (cs.set k v).nodeCountAll = cs.nodeCountAll + v.nodeCount
  | .nil, k, v, _ => by
      simp [ChildMap.set, ChildMap.nodeCountAll]
  | .cons k' c rest, k, v, h => by
      by_cases hk : k' = k
      · simp [ChildMap.lookup, hk] at h
      · simp [ChildMap.lookup, hk] at h
        simp [ChildMap.set, hk, ChildMap.nodeCountAll,
              ChildMap.nodeCountAll_set_none rest k v h]
        omega

theorem ChildMap.nodeCountAll_set_some :
    ∀ (cs : ChildMap) (k : String) (c v : SceneNode),
      cs.lookup k = some c →
      (cs.set k v).nodeCountAll + c.nodeCount =
        cs.nodeCountAll + v.nodeCount
  | .nil, k, c, v, h => by simp [ChildMap.lookup] at h
  | .cons k' c' rest, k, c, v, h => by
      by_cases hk : k' = k
      · simp [ChildMap.lookup, hk] at h
        simp [ChildMap.set, hk, ChildMap.nodeCountAll, h]
        omega
      · simp [ChildMap.lookup, hk] at h
        have := ChildMap.nodeCountAll_set_some rest k c v h
        simp [ChildMap.set, hk, ChildMap.nodeCountAll]
        omega

/-! Helper lemmas about disposal. -/

theorem Res.toEvent_injective : Function.Injective Res.toEvent := by
  intro a b h
  cases a <;> cases b <;> simp [Res.toEvent] at h <;> simp [h]

theorem disposeMat_eq (m : MatRes) :
    disposeMat m = m.resources.map Res.toEvent := by
  cases m with
  | mk i mp => cases mp <;> simp [disposeMat, MatRes.resources, Res.toEvent]

theorem dispose_eq (o : Obj) :
    dispose o = o.resources.map Res.toEvent := by
  have hdm : disposeMat = fun m => m.resources.map Res.toEvent :=
    funext disposeMat_eq
  unfold dispose Obj.resources Obj.materials
  cases hg : o.geometry <;> cases hm : o.material <;>
    simp [Res.toEvent, hdm, List.map_flatMap, Function.comp]

mutual
theorem SceneNode.dispose_recursive_eq :
    ∀ t : SceneNode, t.dispose_recursive = t.resourcesRec.map Res.toEvent
  | .mk obj cs => by
      simp [SceneNode.dispose_recursive, SceneNode.resourcesRec,
            ChildMap.disposeAll_eq cs, dispose_eq]
theorem ChildMap.disposeAll_eq :
    ∀ cs : ChildMap, cs.disposeAll = cs.resourcesAll.map Res.toEvent
  | .nil => by simp [ChildMap.disposeAll, ChildMap.resourcesAll]
  | .cons k c rest => by
      simp [ChildMap.disposeAll, ChildMap.resourcesAll,
            SceneNode.dispose_recursive_eq c, ChildMap.disposeAll_eq rest]
end

mutual
theorem SceneNode.dispose_recursive_postorder :
    ∀ t : SceneNode, t.dispose_recursive = t.postorder.flatMap dispose
  | .mk obj cs => by
      simp [SceneNode.dispose_recursive, SceneNode.postorder,
            ChildMap.disposeAll_postorder cs]
theorem ChildMap.disposeAll_postorder :
    ∀ cs : ChildMap, cs.disposeAll = cs.postorderAll.flatMap dispose
  | .nil => by simp [ChildMap.disposeAll, ChildMap.postorderAll]
  | .cons k c rest => by
      simp [ChildMap.disposeAll, ChildMap.postorderAll,
            SceneNode.dispose_recursive_postorder c,
            ChildMap.disposeAll_postorder rest]
end

mutual
theorem SceneNode.postorder_length :
    ∀ t : SceneNode, t.postorder.length = t.nodeCount
  | .mk obj cs => by
      simp [SceneNode.postorder, SceneNode.nodeCount,
            ChildMap.postorderAll_length cs]
      omega
theorem ChildMap.postorderAll_length :
    ∀ cs : ChildMap, cs.postorderAll.length = cs.nodeCountAll
  | .nil => by simp [ChildMap.postorderAll, ChildMap.nodeCountAll]
  | .cons k c rest => by
      simp [ChildMap.postorderAll, ChildMap.nodeCountAll,
            SceneNode.postorder_length c, ChildMap.postorderAll_length rest]
end

theorem ChildMap.disposeAll_chunk :
    ∀ (cs : ChildMap) (k : String) (c : SceneNode),
      cs.lookup k = some c →
      ∃ pre post, cs.disposeAll = pre ++ c.dispose_recursive ++ post
  | .nil, k, c, h => by simp [ChildMap.lookup] at h
  | .cons k' c' rest, k, c, h => by
      by_cases hk : k' = k
      · simp [ChildMap.lookup, hk] at h
        exact ⟨[], rest.disposeAll, by simp [ChildMap.disposeAll, h]⟩
      · simp [ChildMap.lookup, hk] at h
        obtain ⟨pre, post, hp⟩ := ChildMap.disposeAll_chunk rest k c h
        exact ⟨c'.dispose_recursive ++ pre, post,
               by simp [ChildMap.disposeAll, hp]⟩

/-! Helper lemmas about path resolution. -/

theorem SceneNode.find_created_le :
    ∀ (p : List String) (t : SceneNode), (t.find p).created ≤ p.length
  | [], t => by simp [SceneNode.find]
  | name :: rest, .mk obj cs => by
      cases h : cs.lookup name with
      | some child =>
          have := SceneNode.find_created_le rest child
          simp [SceneNode.find, h]
          omega
      | none =>
          have := SceneNode.find_created_le rest (freshNode name)
          simp [SceneNode.find, h]
          omega

theorem SceneNode.find_idem :
    ∀ (p : List String) (t : SceneNode),
      (t.find p).tree.find p = ⟨(t.find p).tree, (t.find p).node, 0⟩
  | [], t => by simp [SceneNode.find]
  | name :: rest, .mk obj cs => by
      cases h : cs.lookup name with
      | some child =>
          have ih := SceneNode.find_idem rest child
          simp [SceneNode.find, h, ChildMap.lookup_set_self,
                ChildMap.set_set_same, ih]
      | none =>
          have ih := SceneNode.find_idem rest (freshNode name)
          simp [SceneNode.find, h, ChildMap.lookup_set_self,
                ChildMap.set_set_same, ih]

theorem SceneNode.find_nodeCount :
    ∀ (p : List String) (t : SceneNode),
      (t.find p).tree.nodeCount = t.nodeCount + (t.find p).created
  | [], t => by simp [SceneNode.find]
  | name :: rest, .mk obj cs => by
      cases h : cs.lookup name with
      | some child =>
          have ih := SceneNode.find_nodeCount rest child
          have hset := ChildMap.nodeCountAll_set_some cs name child
            (child.find rest).tree h
          simp [SceneNode.find, h, SceneNode.nodeCount] at ih hset ⊢
          omega
      | none =>
          have ih := SceneNode.find_nodeCount rest (freshNode name)
          have hset := ChildMap.nodeCountAll_set_none cs name
            ((freshNode name).find rest).tree h
          simp [SceneNode.find, h, SceneNode.nodeCount,
                ChildMap.nodeCountAll, freshNode] at ih hset ⊢
          omega

/-! Claim theorems. -/

theorem ratSqrt_one : ratSqrt 1 = 1 := by
  have : natSqrt 1 = 1 := by decide
  simp [ratSqrt, this]

theorem ratSqrt_four : ratSqrt 4 = 2 := by
  have h : natSqrt (Int.toNat 4) = 2 := by decide
  rw [ratSqrt]
  norm_num [h]

theorem decompose_identity :
    decompose identity16 =
      ⟨((0 : ℚ), (0 : ℚ), (0 : ℚ)), ((0 : ℚ), (0 : ℚ), (0 : ℚ), (1 : ℚ)),
       ((1 : ℚ), (1 : ℚ), (1 : ℚ))⟩ := by
  rw [decompose]
  simp [identity16, mat4det, List.getD]
  norm_num [ratSqrt_one, quatFromRotationMatrix, ratSqrt_four]


/-- C2: for every path `p` and node, `find(p)` called twice in succession
with no intervening delete returns the same node both times, creates at
most `len(p)` new nodes in total (all on the first call: the second call
creates none and leaves the tree untouched), never fails (it is a total
function emitting no disposal or error events), and on the empty path
returns the node it was called on.  The node-count equation shows the
first call creates exactly its reported number of nodes and removes
nothing. -/
theorem find_idempotent_resolution :
    ∀ (t : SceneNode) (p : List String),
      t.find [] = ⟨t, t, 0⟩ ∧
      (t.find p).created ≤ p.length ∧
      (t.find p).tree.find p = ⟨(t.find p).tree, (t.find p).node, 0⟩ ∧
      (t.find p).tree.nodeCount = t.nodeCount + (t.find p).created :=
  fun t p =>
    ⟨by simp [SceneNode.find], SceneNode.find_created_le p t,
     SceneNode.find_idem p t, SceneNode.find_nodeCount p t⟩

/-- C6: deleting the empty path leaves the tree entirely unchanged and
reports an error to the log sink; the operation returns normally (its type
is a total function returning the tree and the event trace — nothing is
thrown), so the condition is local and non-fatal. -/
theorem delete_empty_path_reports_error (t : SceneNode) :
    t.delete [] = (t, [Event.errorLog "Can't delete an empty path"]) := by
  cases t
  rfl

/-- C9: applying `set_transform` with the 16-element identity matrix to any
node sets the wrapped object's position to (0,0,0), its rotation to the
identity quaternion (0,0,0,1), and its scale to (1,1,1). -/
theorem set_transform_identity (n : SceneNode) :
    ((n.set_transform identity16).1.object.position = ((0 : ℚ), (0 : ℚ), (0 : ℚ))) ∧
    ((n.set_transform identity16).1.object.quaternion =
      ((0 : ℚ), (0 : ℚ), (0 : ℚ), (1 : ℚ))) ∧
    ((n.set_transform identity16).1.object.scale =
      ((1 : ℚ), (1 : ℚ), (1 : ℚ))) := by
  cases n
  simp [SceneNode.set_transform, SceneNode.object, SceneNode.children,
        decompose_identity]

/-- C7 counterexample: the claim says every transform mutation invokes the
display-refresh callback exactly once, but `set_transform` contains no
`vis_controller.updateDisplay()` call: on a concrete node and the identity
matrix it invokes the callback zero times. -/
theorem set_transform_no_refresh_counterexample :
    refreshCount (sampleRoot.set_transform identity16).2 ≠ 1 := by
  decide

/-- C7 amended: every `set_property` mutation invokes the display-refresh
callback exactly once, synchronously after the mutation has been applied
and never before it (the single refresh event records exactly the
post-mutation object); `set_transform` never invokes the callback. -/
theorem set_property_refresh_after_mutation :
    ∀ (n : SceneNode) (property : String) (v : Val) (m : List ℚ),
      (n.set_property property v).2 =
        [Event.refresh (n.set_property property v).1.object] ∧
      (n.set_transform m).2 = [] := by
  intro n property v m
  cases n
  constructor
  · simp [SceneNode.set_property, SceneNode.object, SceneNode.children]
  · simp [SceneNode.set_transform]

/-- C5 counterexample: deleting `["x", "y"]` on a fresh root — a non-empty
path whose last segment "y" does not exist in the parent resolved from the
prefix `["x"]` — does NOT leave the tree structurally unchanged: resolving
the prefix via `find` fabricates the missing intermediate node "x".
(No disposal and no error are surfaced, but the tree gains a node.) -/
theorem delete_missing_leaf_counterexample :
    (sampleRoot.delete ["x", "y"]).1 ≠ sampleRoot ∧
    sampleRoot.getNode? ["x"] = Option.none ∧
    ((sampleRoot.find ["x"]).node).children.lookup "y" = Option.none ∧
    (sampleRoot.delete ["x", "y"]).2 = [] := by
  refine ⟨?_, by decide, by decide, by decide⟩
  decide

/-- C5 amended: deleting a non-empty path whose last segment does not exist
in the resolved parent leaves the tree structurally unchanged and surfaces
no event (no disposal, no error) — provided every preceding segment
already resolves to an existing node (otherwise `find` on the prefix
fabricates the missing intermediates and the tree gains nodes). -/
theorem delete_missing_leaf_noop :
    ∀ (p : List String) (t parent : SceneNode) (name : String),
      t.getNode? p = some parent →
      parent.children.lookup name = Option.none →
      t.delete (p ++ [name]) = (t, [])
  | [], .mk obj cs, parent, name, hp, hl => by
      simp [SceneNode.getNode?] at hp
      subst hp
      simp [SceneNode.children] at hl
      simp [SceneNode.delete, hl]
  | seg :: rest, .mk obj cs, parent, name, hp, hl => by
      simp [SceneNode.getNode?, Option.bind_eq_some] at hp
      obtain ⟨c, hc, hcp⟩ := hp
      have ih := delete_missing_leaf_noop rest c parent name hcp hl
      cases hr : rest ++ [name] with
      | nil => simp at hr
      | cons a l =>
          rw [List.cons_append, hr]
          rw [hr] at ih
          simp [SceneNode.delete, hc, ih, ChildMap.set_lookup_eq cs seg c hc]

/-- Witness for the amended C5 theorem: on the tree where path `["a"]`
already exists, deleting `["a", "y"]` (with "y" absent under "a") is a
strict no-op. -/
theorem delete_missing_leaf_noop_witness :
    sampleFound.getNode? ["a"] = some (freshNode "a") ∧
    (freshNode "a").children.lookup "y" = Option.none ∧
    sampleFound.delete ["a", "y"] = (sampleFound, []) :=
  ⟨by decide, by decide,
   delete_missing_leaf_noop ["a"] sampleFound (freshNode "a") "y"
     (by decide) (by decide)⟩

theorem SceneNode.set_object_cons_succeeds :
    ∀ (rest : List String) (seg : String) (t : SceneNode) (o : Obj),
      ∃ t', (t.set_object (seg :: rest) o).1 = some t'
  | [], seg, .mk obj cs, o => by
      simp [SceneNode.set_object]
  | a :: l, seg, .mk obj cs, o => by
      cases hc : cs.lookup seg with
      | some c =>
          obtain ⟨t', ht⟩ := SceneNode.set_object_cons_succeeds l a c o
          exact ⟨.mk obj (cs.set seg t'),
                 by simp [SceneNode.set_object, hc, ht]⟩
      | none =>
          obtain ⟨t', ht⟩ :=
            SceneNode.set_object_cons_succeeds l a (freshNode seg) o
          exact ⟨.mk obj (cs.set seg t'),
                 by simp [SceneNode.set_object, hc, ht]⟩

/-- C10: `set_object` unconditionally dereferences the wrapped object's
parent back-reference.  Called through any non-empty path the resolved
node's object has a parent (the parent node's object) and the swap always
succeeds — the error branch is unreachable; called on the tree root, whose
object has no parent, it faults (`this.object.parent.remove` throws after
`dispose_recursive` has already emitted the subtree's release events). -/
theorem set_object_parent_precondition :
    (∀ (t : SceneNode) (newObj : Obj),
      (t.set_object [] newObj).1 = Option.none ∧
      (t.set_object [] newObj).2 = t.dispose_recursive) ∧
    (∀ (seg : String) (rest : List String) (t : SceneNode) (newObj : Obj),
      ∃ t', (t.set_object (seg :: rest) newObj).1 = some t') :=
  ⟨fun t newObj => by cases t; exact ⟨rfl, rfl⟩,
   fun seg rest t newObj =>
     SceneNode.set_object_cons_succeeds rest seg t newObj⟩

/-- C4: in the release sequence produced by `dispose_recursive`, no node's
resources are released before the resources of all of its descendants: the
events of the node at any path `p` form a contiguous chunk placed
immediately after the events of all of its descendants (children first,
depth-first, then self). -/
theorem dispose_children_before_parent :
    ∀ (p : List String) (t n : SceneNode),
      t.getNode? p = some n →
      ∃ pre post,
        t.dispose_recursive =
          pre ++ (n.children.disposeAll ++ dispose n.object) ++ post ∧
        n.dispose_recursive = n.children.disposeAll ++ dispose n.object
  | [], t, n, h => by
      simp [SceneNode.getNode?] at h
      subst h
      cases t with
      | mk obj cs =>
          exact ⟨[], [],
            by simp [SceneNode.dispose_recursive, SceneNode.children,
                     SceneNode.object],
            by simp [SceneNode.dispose_recursive, SceneNode.children,
                     SceneNode.object]⟩
  | seg :: rest, .mk obj cs, n, h => by
      simp [SceneNode.getNode?, Option.bind_eq_some] at h
      obtain ⟨c, hc, hcn⟩ := h
      obtain ⟨pre1, post1, h1⟩ := ChildMap.disposeAll_chunk cs seg c hc
      obtain ⟨pre2, post2, h2, hself⟩ :=
        dispose_children_before_parent rest c n hcn
      exact ⟨pre1 ++ pre2, post2 ++ post1 ++ dispose obj,
        by simp [SceneNode.dispose_recursive, h1, h2], hself⟩

/-- Witness for the disposal-ordering theorem: on the concrete two-level
resource tree, the node at path `["c"]` has its events placed after its
(empty) descendant events, inside the global sequence. -/
theorem dispose_children_before_parent_witness :
    resourceTree.getNode? ["c"] = some (.mk objSingleMat .nil) ∧
    (∃ pre post,
      resourceTree.dispose_recursive =
        pre ++ ((SceneNode.mk objSingleMat .nil).children.disposeAll ++
                dispose (SceneNode.mk objSingleMat .nil).object) ++ post ∧
      (SceneNode.mk objSingleMat .nil).dispose_recursive =
        (SceneNode.mk objSingleMat .nil).children.disposeAll ++
          dispose (SceneNode.mk objSingleMat .nil).object) :=
  ⟨by decide,
   dispose_children_before_parent ["c"] resourceTree
     (.mk objSingleMat .nil) (by decide)⟩

theorem disposeMat_sublist_of_mem :
    ∀ (ms : List MatRes) (m : MatRes), m ∈ ms →
      (disposeMat m).Sublist (ms.flatMap disposeMat) := by
  intro ms m hm
  induction ms with
  | nil => simp at hm
  | cons m' rest ih =>
      rcases List.mem_cons.mp hm with h | h
      · subst h
        simp only [List.flatMap_cons]
        exact List.sublist_append_left (disposeMat m) (rest.flatMap disposeMat)
      · simpa using (ih h).trans
          (List.sublist_append_right (disposeMat m') (rest.flatMap disposeMat))

theorem dispose_tex_before_mat (o : Obj) (m : MatRes) (hm : m ∈ o.materials)
    (tid : Nat) (htid : m.map = some tid) :
    [Event.tex tid, Event.mat m.id].Sublist (dispose o) := by
  have h1 : disposeMat m = [Event.tex tid, Event.mat m.id] := by
    simp [disposeMat, htid]
  rw [dispose.eq_def]
  rw [Obj.materials.eq_def] at hm
  rcases hmat : o.material with _ | m' | ms <;> rw [hmat] at hm
  · simp at hm
  · simp at hm
    subst hm
    rw [← h1]
    exact List.sublist_append_right _ _
  · simp at hm
    rw [← h1]
    exact (disposeMat_sublist_of_mem ms m hm).trans
      (List.sublist_append_right _ _)

/-- C3: `dispose_recursive` on a subtree emits exactly the per-object
release sequences of all `N = nodeCount` objects it visits (postorder);
when the subtree's resources are pairwise distinct, every resource present
is released exactly once; and within each visited object every material's
texture map (if present) is released before that material itself. -/
theorem dispose_recursive_completeness (t : SceneNode) :
    t.dispose_recursive = t.postorder.flatMap dispose ∧
    t.postorder.length = t.nodeCount ∧
    (t.resourcesRec.Nodup →
      ∀ r ∈ t.resourcesRec, t.dispose_recursive.count r.toEvent = 1) ∧
    (∀ o ∈ t.postorder, ∀ m ∈ o.materials, ∀ tid, m.map = some tid →
      [Event.tex tid, Event.mat m.id].Sublist (dispose o)) :=
  ⟨SceneNode.dispose_recursive_postorder t,
   SceneNode.postorder_length t,
   fun hnd r hr => by
     rw [SceneNode.dispose_recursive_eq]
     rw [List.count_map_of_injective _ Res.toEvent Res.toEvent_injective]
     exact List.count_eq_one_of_mem hnd hr,
   fun o _ m hm tid htid => dispose_tex_before_mat o m hm tid htid⟩

/-- Witness for the disposal-completeness theorem: the concrete two-level
resource tree has pairwise-distinct resources, and applying the theorem
shows its geometry resource 5 is released exactly once. -/
theorem dispose_recursive_completeness_witness :
    resourceTree.resourcesRec.Nodup ∧
    resourceTree.dispose_recursive.count (Res.geo 5).toEvent = 1 ∧
    MatRes.mk 6 (some 7) ∈ objSingleMat.materials ∧
    [Event.tex 7, Event.mat 6].Sublist (dispose objSingleMat) :=
  ⟨by decide,
   (dispose_recursive_completeness resourceTree).2.2.1 (by decide)
     (Res.geo 5) (by decide),
   by decide,
   (dispose_recursive_completeness resourceTree).2.2.2 objSingleMat
     (by decide) (MatRes.mk 6 (some 7)) (by decide) 7 (by decide)⟩

/-- C1: for a non-root node reached by path `p` (the node exists at `p` and
`p` is non-empty), `set_object(p, newObj)` succeeds, the emitted events are
exactly the recursive disposal of the replaced subtree, and `find(p)` from
the root afterwards returns — without creating anything and leaving the
tree untouched — the node at the identical position, now wrapping `newObj`
(with its children map retained); when the subtree's resources are pairwise
distinct, each resource of the previously wrapped object is released
exactly once. -/
theorem set_object_replaces_at_path :
    ∀ (p : List String) (t n : SceneNode) (newObj : Obj),
      p ≠ [] →
      t.getNode? p = some n →
      (t.set_object p newObj).2 = n.dispose_recursive ∧
      (∃ t', (t.set_object p newObj).1 = some t' ∧
        (t'.find p).tree = t' ∧
        (t'.find p).node = SceneNode.mk newObj n.children ∧
        (t'.find p).created = 0) ∧
      (n.resourcesRec.Nodup →
        ∀ r ∈ n.object.resources,
          (t.set_object p newObj).2.count r.toEvent = 1)
  | [], _, _, _, hne, _ => absurd rfl hne
  | [seg], .mk obj cs, n, newObj, _, h => by
      simp [SceneNode.getNode?, Option.bind_eq_some] at h
      have hc : cs.lookup seg = some n := h
      refine ⟨by simp [SceneNode.set_object, hc], ?_, ?_⟩
      · refine ⟨.mk obj (cs.set seg (.mk newObj n.children)),
          by simp [SceneNode.set_object, hc], ?_, ?_, ?_⟩ <;>
          simp [SceneNode.find, ChildMap.lookup_set_self,
                ChildMap.set_set_same]
      · intro hnd r hr
        have hmem : r ∈ n.resourcesRec := by
          cases n with
          | mk o' cs' =>
              simp [SceneNode.resourcesRec]
              right
              simpa [SceneNode.object] using hr
        simp only [SceneNode.set_object, hc]
        rw [SceneNode.dispose_recursive_eq]
        rw [List.count_map_of_injective _ Res.toEvent Res.toEvent_injective]
        exact List.count_eq_one_of_mem hnd hmem
  | seg :: a :: l, .mk obj cs, n, newObj, _, h => by
      simp [SceneNode.getNode?, Option.bind_eq_some] at h
      obtain ⟨c, hc, hcn⟩ := h
      obtain ⟨hev, ⟨t'', ht1, ht2, ht3, ht4⟩, hcount⟩ :=
        set_object_replaces_at_path (a :: l) c n newObj (by simp) hcn
      refine ⟨by simp [SceneNode.set_object, hc, hev], ?_, ?_⟩
      · refine ⟨.mk obj (cs.set seg t''),
          by simp [SceneNode.set_object, hc, ht1], ?_, ?_, ?_⟩ <;>
          simp [SceneNode.find, ChildMap.lookup_set_self, ht2, ht3, ht4,
                ChildMap.set_set_same]
      · intro hnd r hr
        have := hcount hnd r hr
        simpa [SceneNode.set_object, hc, hev] using this

/-- Witness for the replacement theorem: replacing the object of the node
at `["c"]` in the concrete resource tree emits exactly that subtree's
disposal events, and the old object's geometry resource is released
exactly once. -/
theorem set_object_replaces_at_path_witness :
    resourceTree.getNode? ["c"] = some (.mk objSingleMat .nil) ∧
    (resourceTree.set_object ["c"] (groupObj "new")).2 =
      (SceneNode.mk objSingleMat .nil).dispose_recursive ∧
    (resourceTree.set_object ["c"] (groupObj "new")).2.count
      (Res.geo 5).toEvent = 1 :=
  ⟨by decide,
   (set_object_replaces_at_path ["c"] resourceTree (.mk objSingleMat .nil)
      (groupObj "new") (by simp) (by decide)).1,
   (set_object_replaces_at_path ["c"] resourceTree (.mk objSingleMat .nil)
      (groupObj "new") (by simp) (by decide)).2.2 (by decide) (Res.geo 5)
      (by decide)⟩

/-! Helper lemmas for invariant I1. -/

theorem ChildMap.inv1All_lookup :
    ∀ (cs : ChildMap) (k : String) (c : SceneNode),
      cs.inv1All = true → cs.lookup k = some c →
      k = c.object.name ∧ c.inv1 = true
  | .nil, k, c, _, hl => by simp [ChildMap.lookup] at hl
  | .cons k' c' rest, k, c, hi, hl => by
      simp [ChildMap.inv1All, Bool.and_eq_true, beq_iff_eq] at hi
      obtain ⟨⟨hk', hc'⟩, hrest⟩ := hi
      by_cases hk : k' = k
      · simp [ChildMap.lookup, hk] at hl
        subst hl
        exact ⟨hk ▸ hk', hc'⟩
      · simp [ChildMap.lookup, hk] at hl
        exact ChildMap.inv1All_lookup rest k c hrest hl

theorem ChildMap.inv1All_set :
    ∀ (cs : ChildMap) (k : String) (c : SceneNode),
      cs.inv1All = true → k = c.object.name → c.inv1 = true →
      (cs.set k c).inv1All = true
  | .nil, k, c, _, hk, hc => by
      simp [ChildMap.set, ChildMap.inv1All, hk, hc]
  | .cons k' c' rest, k, c, hi, hk, hc => by
      simp [ChildMap.inv1All, Bool.and_eq_true, beq_iff_eq] at hi
      obtain ⟨⟨hk', hc'⟩, hrest⟩ := hi
      by_cases he : k' = k
      · simp [ChildMap.set, he, ChildMap.inv1All, hk, hc, hrest]
      · rw [ChildMap.set, if_neg he]
        simp [ChildMap.inv1All, Bool.and_eq_true, beq_iff_eq]
        exact ⟨⟨hk', hc'⟩, ChildMap.inv1All_set rest k c hrest hk hc⟩

theorem ChildMap.inv1All_erase :
    ∀ (cs : ChildMap) (k : String),
      cs.inv1All = true → (cs.erase k).inv1All = true
  | .nil, k, _ => by simp [ChildMap.erase, ChildMap.inv1All]
  | .cons k' c' rest, k, hi => by
      simp [ChildMap.inv1All, Bool.and_eq_true, beq_iff_eq] at hi
      obtain ⟨⟨hk', hc'⟩, hrest⟩ := hi
      by_cases he : k' = k
      · simp [ChildMap.erase, he, hrest]
      · rw [ChildMap.erase, if_neg he]
        simp [ChildMap.inv1All, Bool.and_eq_true, beq_iff_eq]
        exact ⟨⟨hk', hc'⟩, ChildMap.inv1All_erase rest k hrest⟩

theorem SceneNode.children_inv1All (c : SceneNode) (h : c.inv1 = true) :
    c.children.inv1All = true := by
  cases c
  simpa [SceneNode.inv1, SceneNode.children] using h

theorem SceneNode.find_tree_object :
    ∀ (p : List String) (t : SceneNode), ((t.find p).tree).object = t.object
  | [], t => by simp [SceneNode.find]
  | name :: rest, .mk obj cs => by
      cases h : cs.lookup name <;>
        simp [SceneNode.find, h, SceneNode.object]

theorem SceneNode.createChildAt_object :
    ∀ (p : List String) (t : SceneNode) (nm : String),
      (t.createChildAt p nm).object = t.object
  | [], .mk obj cs, nm => rfl
  | seg :: rest, .mk obj cs, nm => by
      cases h : cs.lookup seg <;>
        simp [SceneNode.createChildAt, h, SceneNode.object]

theorem SceneNode.set_property_object_name
    (n : SceneNode) (property : String) (v : Val) (h : property ≠ "name") :
    ((n.set_property property v).1).object.name = n.object.name := by
  cases n
  simp [SceneNode.set_property, SceneNode.object, SceneNode.children]
  split <;> try rfl
  split <;> try rfl
  split <;> try rfl
  simp [Obj.setGeneric, h]

theorem SceneNode.setPropertyAt_object_name :
    ∀ (p : List String) (t : SceneNode) (property : String) (v : Val),
      property ≠ "name" →
      ((t.setPropertyAt p property v).1).object.name = t.object.name
  | [], t, property, v, h => by
      simp [SceneNode.setPropertyAt]
      exact SceneNode.set_property_object_name t property v h
  | seg :: rest, .mk obj cs, property, v, h => by
      cases hc : cs.lookup seg <;>
        simp [SceneNode.setPropertyAt, hc, SceneNode.object]

theorem SceneNode.setTransformAt_object_name :
    ∀ (p : List String) (t : SceneNode) (m : List ℚ),
      ((t.setTransformAt p m).1).object.name = t.object.name
  | [], .mk obj cs, m => by
      simp [SceneNode.setTransformAt, SceneNode.set_transform,
            SceneNode.object, SceneNode.children]
  | seg :: rest, .mk obj cs, m => by
      cases hc : cs.lookup seg <;>
        simp [SceneNode.setTransformAt, hc, SceneNode.object]

theorem SceneNode.delete_object :
    ∀ (p : List String) (t : SceneNode), ((t.delete p).1).object = t.object
  | [], t => by simp [SceneNode.delete]
  | [name], .mk obj cs => by
      cases hc : cs.lookup name <;>
        simp [SceneNode.delete, hc, SceneNode.object]
  | seg :: a :: l, .mk obj cs => by
      cases hc : cs.lookup seg <;>
        simp [SceneNode.delete, hc, SceneNode.object]

theorem SceneNode.set_object_object :
    ∀ (rest : List String) (seg : String) (t : SceneNode) (o : Obj)
      (t' : SceneNode),
      (t.set_object (seg :: rest) o).1 = some t' → t'.object = t.object
  | [], seg, .mk obj cs, o, t', h => by
      simp [SceneNode.set_object] at h
      subst h
      rfl
  | a :: l, seg, .mk obj cs, o, t', h => by
      cases hc : cs.lookup seg <;>
        simp [SceneNode.set_object, hc] at h <;>
        obtain ⟨c', _, hc'⟩ := h <;>
        subst hc' <;> rfl

theorem SceneNode.find_inv1 :
    ∀ (p : List String) (t : SceneNode),
      t.inv1 = true → ((t.find p).tree).inv1 = true
  | [], t, h => by simpa [SceneNode.find] using h
  | name :: rest, .mk obj cs, h => by
      simp [SceneNode.inv1] at h
      cases hc : cs.lookup name with
      | some child =>
          obtain ⟨hname, hchild⟩ := ChildMap.inv1All_lookup cs name child h hc
          have htree := SceneNode.find_inv1 rest child hchild
          have hobj := SceneNode.find_tree_object rest child
          simp [SceneNode.find, hc, SceneNode.inv1]
          exact ChildMap.inv1All_set cs name _ h (by rw [hobj]; exact hname)
            htree
      | none =>
          have htree := SceneNode.find_inv1 rest (freshNode name) rfl
          have hobj := SceneNode.find_tree_object rest (freshNode name)
          simp [SceneNode.find, hc, SceneNode.inv1]
          exact ChildMap.inv1All_set cs name _ h (by rw [hobj]; rfl) htree

theorem SceneNode.createChildAt_inv1 :
    ∀ (p : List String) (t : SceneNode) (nm : String),
      t.inv1 = true → (t.createChildAt p nm).inv1 = true
  | [], .mk obj cs, nm, h => by
      simp [SceneNode.inv1] at h
      simp [SceneNode.createChildAt, SceneNode.inv1]
      exact ChildMap.inv1All_set cs nm _ h rfl rfl
  | seg :: rest, .mk obj cs, nm, h => by
      simp [SceneNode.inv1] at h
      cases hc : cs.lookup seg with
      | some child =>
          obtain ⟨hname, hchild⟩ := ChildMap.inv1All_lookup cs seg child h hc
          have htree := SceneNode.createChildAt_inv1 rest child nm hchild
          have hobj := SceneNode.createChildAt_object rest child nm
          simp [SceneNode.createChildAt, hc, SceneNode.inv1]
          exact ChildMap.inv1All_set cs seg _ h (by rw [hobj]; exact hname)
            htree
      | none =>
          have htree := SceneNode.createChildAt_inv1 rest (freshNode seg) nm
            rfl
          have hobj := SceneNode.createChildAt_object rest (freshNode seg) nm
          simp [SceneNode.createChildAt, hc, SceneNode.inv1]
          exact ChildMap.inv1All_set cs seg _ h (by rw [hobj]; rfl) htree

theorem SceneNode.set_property_inv1
    (n : SceneNode) (property : String) (v : Val) (h : n.inv1 = true) :
    ((n.set_property property v).1).inv1 = true := by
  cases n
  simpa [SceneNode.set_property, SceneNode.inv1, SceneNode.children] using h

theorem SceneNode.setPropertyAt_inv1 :
    ∀ (p : List String) (t : SceneNode) (property : String) (v : Val),
      property ≠ "name" → t.inv1 = true →
      ((t.setPropertyAt p property v).1).inv1 = true
  | [], t, property, v, _, h => by
      simp [SceneNode.setPropertyAt]
      exact SceneNode.set_property_inv1 t property v h
  | seg :: rest, .mk obj cs, property, v, hn, h => by
      simp [SceneNode.inv1] at h
      cases hc : cs.lookup seg with
      | some child =>
          obtain ⟨hname, hchild⟩ := ChildMap.inv1All_lookup cs seg child h hc
          have htree := SceneNode.setPropertyAt_inv1 rest child property v hn
            hchild
          have hobj := SceneNode.setPropertyAt_object_name rest child property
            v hn
          simp [SceneNode.setPropertyAt, hc, SceneNode.inv1]
          exact ChildMap.inv1All_set cs seg _ h (by rw [hobj]; exact hname)
            htree
      | none =>
          have htree := SceneNode.setPropertyAt_inv1 rest (freshNode seg)
            property v hn rfl
          have hobj := SceneNode.setPropertyAt_object_name rest
            (freshNode seg) property v hn
          simp [SceneNode.setPropertyAt, hc, SceneNode.inv1]
          exact ChildMap.inv1All_set cs seg _ h (by rw [hobj]; rfl) htree

theorem SceneNode.setTransformAt_inv1 :
    ∀ (p : List String) (t : SceneNode) (m : List ℚ),
      t.inv1 = true → ((t.setTransformAt p m).1).inv1 = true
  | [], .mk obj cs, m, h => by
      simpa [SceneNode.setTransformAt, SceneNode.set_transform,
             SceneNode.inv1, SceneNode.children] using h
  | seg :: rest, .mk obj cs, m, h => by
      simp [SceneNode.inv1] at h
      cases hc : cs.lookup seg with
      | some child =>
          obtain ⟨hname, hchild⟩ := ChildMap.inv1All_lookup cs seg child h hc
          have htree := SceneNode.setTransformAt_inv1 rest child m hchild
          have hobj := SceneNode.setTransformAt_object_name rest child m
          simp [SceneNode.setTransformAt, hc, SceneNode.inv1]
          exact ChildMap.inv1All_set cs seg _ h (by rw [hobj]; exact hname)
            htree
      | none =>
          have htree := SceneNode.setTransformAt_inv1 rest (freshNode seg) m
            rfl
          have hobj := SceneNode.setTransformAt_object_name rest
            (freshNode seg) m
          simp [SceneNode.setTransformAt, hc, SceneNode.inv1]
          exact ChildMap.inv1All_set cs seg _ h (by rw [hobj]; rfl) htree

theorem SceneNode.delete_inv1 :
    ∀ (p : List String) (t : SceneNode),
      t.inv1 = true → ((t.delete p).1).inv1 = true
  | [], t, h => by simpa [SceneNode.delete] using h
  | [name], .mk obj cs, h => by
      simp [SceneNode.inv1] at h
      cases hc : cs.lookup name with
      | some child =>
          simp [SceneNode.delete, hc, SceneNode.inv1]
          exact ChildMap.inv1All_erase cs name h
      | none =>
          simpa [SceneNode.delete, hc, SceneNode.inv1] using h
  | seg :: a :: l, .mk obj cs, h => by
      simp [SceneNode.inv1] at h
      cases hc : cs.lookup seg with
      | some child =>
          obtain ⟨hname, hchild⟩ := ChildMap.inv1All_lookup cs seg child h hc
          have htree := SceneNode.delete_inv1 (a :: l) child hchild
          have hobj := SceneNode.delete_object (a :: l) child
          simp [SceneNode.delete, hc, SceneNode.inv1]
          exact ChildMap.inv1All_set cs seg _ h (by rw [hobj]; exact hname)
            htree
      | none =>
          have htree := SceneNode.delete_inv1 (a :: l) (freshNode seg) rfl
          have hobj := SceneNode.delete_object (a :: l) (freshNode seg)
          simp [SceneNode.delete, hc, SceneNode.inv1]
          exact ChildMap.inv1All_set cs seg _ h (by rw [hobj]; rfl) htree

theorem SceneNode.set_object_inv1 :
    ∀ (p : List String) (t : SceneNode) (o : Obj) (t' : SceneNode),
      t.inv1 = true →
      (∀ last, p.getLast? = some last → o.name = last) →
      (t.set_object p o).1 = some t' → t'.inv1 = true
  | [], t, o, t', _, _, h => by
      cases t
      simp [SceneNode.set_object] at h
  | [name], .mk obj cs, o, t', hi, hlast, h => by
      simp [SceneNode.inv1] at hi
      have hon : o.name = name := hlast name rfl
      cases hc : cs.lookup name with
      | some child =>
          obtain ⟨_, hchild⟩ := ChildMap.inv1All_lookup cs name child hi hc
          simp [SceneNode.set_object, hc] at h
          subst h
          simp [SceneNode.inv1]
          exact ChildMap.inv1All_set cs name _ hi
            (by simp [SceneNode.object, hon])
            (by simpa [SceneNode.inv1] using
                  SceneNode.children_inv1All child hchild)
      | none =>
          simp [SceneNode.set_object, hc] at h
          subst h
          simp [SceneNode.inv1]
          exact ChildMap.inv1All_set cs name _ hi
            (by simp [SceneNode.object, hon])
            (by simp [SceneNode.inv1, freshNode, SceneNode.children,
                      ChildMap.inv1All])
  | seg :: a :: l, .mk obj cs, o, t', hi, hlast, h => by
      simp [SceneNode.inv1] at hi
      have hlast2 : ∀ last, (a :: l).getLast? = some last → o.name = last :=
        fun last hl => hlast last (by simpa [List.getLast?_cons_cons] using hl)
      cases hc : cs.lookup seg with
      | some child =>
          obtain ⟨hname, hchild⟩ := ChildMap.inv1All_lookup cs seg child hi hc
          simp [SceneNode.set_object, hc, Option.map_eq_some'] at h
          obtain ⟨t'', ht'', heq⟩ := h
          subst heq
          have htree := SceneNode.set_object_inv1 (a :: l) child o t'' hchild
            hlast2 ht''
          have hobj := SceneNode.set_object_object l a child o t'' ht''
          simp [SceneNode.inv1]
          exact ChildMap.inv1All_set cs seg _ hi (by rw [hobj]; exact hname)
            htree
      | none =>
          simp [SceneNode.set_object, hc, Option.map_eq_some'] at h
          obtain ⟨t'', ht'', heq⟩ := h
          subst heq
          have htree := SceneNode.set_object_inv1 (a :: l) (freshNode seg) o
            t'' rfl hlast2 ht''
          have hobj := SceneNode.set_object_object l a (freshNode seg) o t''
            ht''
          simp [SceneNode.inv1]
          exact ChildMap.inv1All_set cs seg _ hi (by rw [hobj]; rfl) htree

theorem SceneNode.apply_inv1 (t : SceneNode) (op : Op) (h : t.inv1 = true)
    (hg : goodOp op) : (t.apply op).inv1 = true := by
  cases op with
  | findOp p => exact SceneNode.find_inv1 p t h
  | createChild p name => exact SceneNode.createChildAt_inv1 p t name h
  | setProperty p property v =>
      exact SceneNode.setPropertyAt_inv1 p t property v hg h
  | setTransform p m => exact SceneNode.setTransformAt_inv1 p t m h
  | setObject p o =>
      simp only [SceneNode.apply]
      cases hso : t.set_object p o with
      | mk fst snd =>
          cases fst with
          | none => exact h
          | some t' =>
              exact SceneNode.set_object_inv1 p t o t' h hg
                (by rw [hso])
  | deleteOp p => exact SceneNode.delete_inv1 p t h

/-- C8 counterexample: invariant I1 does NOT hold in every state reachable
by the exposed operations from a freshly constructed tree: starting from a
fresh root, `find(["a"])` followed by `set_object` at `["a"]` with an
object named "b" yields a reachable state whose children key "a" maps to a
node wrapping an object named "b". -/
theorem inv1_violated_counterexample :
    SceneNode.inv1
      (sampleRoot.applySeq
        [Op.findOp ["a"], Op.setObject ["a"] (groupObj "b")]) = false ∧
    SceneNode.inv1 sampleRoot = true := by
  constructor <;> decide

/-- C8 amended: invariant I1 (every key in every `children` map equals the
name of the wrapped object of the corresponding child) holds in every
state reachable from a tree satisfying it — in particular any freshly
constructed tree — by any sequence of the exposed operations, provided
each `set_object` installs an object named like its path's last segment
(equivalently, like the object it replaces, since under I1 that node's
name equals the key) and no `set_property` targets the `name` field.
Unrestricted `set_object` or `set_property("name", …)` can break I1, as
the counterexample shows. -/
theorem inv1_preserved_by_operations :
    ∀ (ops : List Op) (t : SceneNode),
      t.inv1 = true → (∀ op ∈ ops, goodOp op) →
      (t.applySeq ops).inv1 = true
  | [], t, h, _ => by simpa [SceneNode.applySeq] using h
  | op :: ops, t, h, hg => by
      have h1 := SceneNode.apply_inv1 t op h (hg op (by simp))
      have h2 := inv1_preserved_by_operations ops (t.apply op) h1
        (fun o ho => hg o (by simp [ho]))
      simpa [SceneNode.applySeq] using h2

/-- Witness for the invariant theorem: a concrete sequence — resolve a
path, replace the object at it by one carrying the same name, mutate a
property and a transform, then delete — keeps I1 true on the fresh root. -/
theorem inv1_preserved_by_operations_witness :
    SceneNode.inv1 sampleRoot = true ∧
    SceneNode.inv1
      (sampleRoot.applySeq
        [Op.findOp ["a", "b"], Op.setObject ["a", "b"] (groupObj "b"),
         Op.setProperty ["a"] "position" (Val.nums [1, 2, 3]),
         Op.setTransform ["a", "b"] identity16,
         Op.createChild ["a"] "c", Op.deleteOp ["a", "c"]]) = true :=
  ⟨by decide,
   inv1_preserved_by_operations
     [Op.findOp ["a", "b"], Op.setObject ["a", "b"] (groupObj "b"),
      Op.setProperty ["a"] "position" (Val.nums [1, 2, 3]),
      Op.setTransform ["a", "b"] identity16,
      Op.createChild ["a"] "c", Op.deleteOp ["a", "c"]]
     sampleRoot (by decide)
     (by
        intro op hop
        simp at hop
        rcases hop with h | h | h | h | h | h <;> subst h <;>
          simp [goodOp, groupObj])⟩
